import Mathlib

/-!
Shallow embedding of the TwitchPeakAnalyzer core (`twitch_analyzer.py`)
and verification of its specification claims.

Python integers are modelled as `Int` (with `Int.fdiv` for Python's floor
division `//`), Python dicts as insertion-ordered association lists,
Python's stable `sorted` as `List.insertionSort` (extensionally equal to
any stable sort for a total preorder), Python floats arising from the
slope computation as `WithTop ℚ` (the code only ever produces finite
values, but the float codomain admits `+infinity`, which the spec's
sentinel language refers to), and raised exceptions as `Except PyError`.
-/

deriving instance DecidableEq for Except

namespace TwitchAnalyzer

/-- Exceptions the analyzer can raise: `ValueError` (argument validation and
time parsing), `ZeroDivisionError` (window size 0 reaching the bucketing
division), `KeyError` (dict lookup of a missing window index). -/
inductive PyError where
  | valueError (msg : String)
  | zeroDivisionError
  | keyError
deriving DecidableEq, Repr

/-- A chat event: `{time_in_seconds: int, message: str}`. -/
structure Event where
  time_in_seconds : Int
  message : String
deriving DecidableEq, Repr

/-- Association-list model of a Python dict lookup `m[k]` (keys are window
indices). Returns `none` where Python would raise `KeyError`. -/
def dlookup {α : Type} : List (Int × α) → Int → Option α
  | [], _ => none
  | (k, v) :: rest, k' => if k = k' then some v else dlookup rest k'

/-- Dict lookup with a default value. -/
def dlookupD {α : Type} (m : List (Int × α)) (k : Int) (d : α) : α :=
  (dlookup m k).getD d

/-- Python's `x or d` for `x` an optional integer: `None` and `0` are falsy. -/
def pyOr (o : Option Int) (d : Int) : Int :=
  match o with
  | none => d
  | some v => if v = 0 then d else v

/-- Python's `min(msg['time_in_seconds'] for msg in chat_data)`
(junk value 0 on the empty list, which the code never reaches). -/
def minTime (chat : List Event) : Int :=
  match chat.map (fun ev => ev.time_in_seconds) with
  | [] => 0
  | t :: ts => ts.foldl min t

/-- Python's `max(msg['time_in_seconds'] for msg in chat_data)`
(junk value 0 on the empty list, which the code never reaches). -/
def maxTime (chat : List Event) : Int :=
  match chat.map (fun ev => ev.time_in_seconds) with
  | [] => 0
  | t :: ts => ts.foldl max t

/-- The in-range test `start_time <= time <= end_time`. -/
def inRange (s e : Int) (ev : Event) : Bool :=
  decide (s ≤ ev.time_in_seconds ∧ ev.time_in_seconds ≤ e)

/-- `defaultdict(list)` append `m[k].append(v)`: extend the entry for `k`
in place, or create a fresh entry at the end (dict insertion order). -/
def upsert : List (Int × List Event) → Int → Event → List (Int × List Event)
  | [], k, v => [(k, [v])]
  | (k', vs) :: rest, k, v =>
    if k' = k then (k', vs ++ [v]) :: rest else (k', vs) :: upsert rest k v

/-- The loop body of `group_messages_by_window`: route one message into its
window bucket `(time - start_time) // window_size` if it is in range. -/
def bucketStep (W s e : Int) (m : List (Int × List Event)) (ev : Event) :
    List (Int × List Event) :=
  if inRange s e ev then upsert m ((ev.time_in_seconds - s).fdiv W) ev else m

/-- The bucket map built by the loop of `group_messages_by_window`. -/
def bucketize (chat : List Event) (W s e : Int) : List (Int × List Event) :=
  chat.foldl (bucketStep W s e) []

/-- `group_messages_by_window(chat_data, window_size, start_time, end_time)`.
Empty input short-circuits to `{}`; the `or`-defaults replace a missing or
zero bound by the min/max event time; `window_size = 0` hits Python's
`ZeroDivisionError` as soon as one in-range message reaches the division. -/
def group_messages_by_window (chat : List Event) (window_size : Int)
    (start_time end_time : Option Int) :
    Except PyError (List (Int × List Event)) :=
  if chat.isEmpty then .ok []
  else
    let s := pyOr start_time (minTime chat)
    let e := pyOr end_time (maxTime chat)
    if window_size = 0 ∧ chat.any (inRange s e) then .error .zeroDivisionError
    else .ok (bucketize chat window_size s e)

/-- `calculate_activity`: number of messages in each window. -/
def calculate_activity (m : List (Int × List Event)) : List (Int × Int) :=
  m.map (fun p => (p.1, (p.2.length : Int)))

/-- Total-preorder comparison used to model Python's ascending `sorted`
on integers. -/
def intLE (a b : Int) : Prop := a ≤ b

instance : DecidableRel intLE := fun a b => Int.decLe a b

/-- `sorted(d.keys())`: the key list of a dict, sorted ascending. -/
def sortKeys {α : Type} (m : List (Int × α)) : List Int :=
  List.insertionSort intLE (m.map Prod.fst)

/-- Consecutive pairs `(windows[i-1], windows[i])` visited by the loop of
`calculate_slope` for `i = 1 .. len(windows)-1`. -/
def consecPairs : List Int → List (Int × Int)
  | [] => []
  | [_] => []
  | a :: b :: rest => (a, b) :: consecPairs (b :: rest)

/-- One slope value. In ratio mode with a positive predecessor the code
computes the float `(current - previous) / previous`; in every other case
it computes the plain integer difference `current - previous`. -/
def slopeVal (ratioMode : Bool) (prev cur : Int) : WithTop ℚ :=
  if ratioMode ∧ 0 < prev then
    (((((cur : ℚ) - (prev : ℚ)) / (prev : ℚ)) : ℚ) : WithTop ℚ)
  else ((((cur : ℚ) - (prev : ℚ)) : ℚ) : WithTop ℚ)

/-- `calculate_slope(activity_by_window, use_ratio)`: one slope entry per
sorted window index except the first, keyed by the current window. -/
def calculate_slope (act : List (Int × Int)) (ratioMode : Bool) :
    List (Int × WithTop ℚ) :=
  (consecPairs (sortKeys act)).map (fun pc =>
    (pc.2, slopeVal ratioMode (dlookupD act pc.1 0) (dlookupD act pc.2 0)))

/-- The sort key `lambda w: (-slopes[w], w)` of `select_top_moments`, as the
total preorder it induces: `a` comes no later than `b` iff `a`'s slope is
larger, or the slopes are equal and `a <= b`. -/
def keyLE (m : List (Int × WithTop ℚ)) (a b : Int) : Prop :=
  dlookupD m b 0 < dlookupD m a 0 ∨ (dlookupD m a 0 = dlookupD m b 0 ∧ a ≤ b)

instance (m : List (Int × WithTop ℚ)) : DecidableRel (keyLE m) := fun a b => by
  unfold keyLE
  infer_instance

instance (m : List (Int × WithTop ℚ)) : IsTotal Int (keyLE m) := by
  constructor
  intro a b
  rcases lt_trichotomy (dlookupD m a 0) (dlookupD m b 0) with h | h | h
  · exact Or.inr (Or.inl h)
  · rcases Int.le_total a b with hab | hab
    · exact Or.inl (Or.inr ⟨h, hab⟩)
    · exact Or.inr (Or.inr ⟨h.symm, hab⟩)
  · exact Or.inl (Or.inl h)

instance (m : List (Int × WithTop ℚ)) : IsTrans Int (keyLE m) := by
  constructor
  intro a b c hab hbc
  rcases hab with hab | ⟨hab1, hab2⟩
  · rcases hbc with hbc | ⟨hbc1, hbc2⟩
    · exact Or.inl (lt_trans hbc hab)
    · exact Or.inl (hbc1 ▸ hab)
  · rcases hbc with hbc | ⟨hbc1, hbc2⟩
    · exact Or.inl (hab1 ▸ hbc)
    · exact Or.inr ⟨hab1.trans hbc1, le_trans hab2 hbc2⟩

/-- Python list slicing `l[:n]`, including the negative-index case. -/
def pySlice {α : Type} (l : List α) (n : Int) : List α :=
  if 0 ≤ n then l.take n.toNat else l.take (l.length - (-n).toNat)

/-- `select_top_moments(slopes, num_moments)`: dict keys sorted by
`(-slopes[w], w)` and cut down to the first `num_moments` when longer. -/
def select_top_moments (slopes : List (Int × WithTop ℚ)) (num_moments : Int) :
    List Int :=
  let sorted_moments := List.insertionSort (keyLE slopes) (slopes.map Prod.fst)
  if (sorted_moments.length : Int) > num_moments then
    pySlice sorted_moments num_moments
  else sorted_moments

/-- Two-digit zero padding of the minute and second fields. -/
def pad2 (n : Int) : String :=
  if n < 10 then ("0" ++ toString n) else toString n

/-- `format_timestamp(seconds)`, i.e. Python's `str(timedelta(seconds=n))`:
`H:MM:SS`, preceded by a day count when the normalized day part is
nonzero. -/
def format_timestamp (seconds : Int) : String :=
  let d := seconds.fdiv 86400
  let r := seconds - 86400 * d
  let h := r.fdiv 3600
  let m := (r - 3600 * h).fdiv 60
  let s := r - 3600 * h - 60 * m
  let hms := toString h ++ (":") ++ pad2 m ++ (":") ++ pad2 s
  if d = 0 then hms
  else
    toString d ++ (if d = 1 ∨ d = -1 then (" day, ") else (" days, ")) ++ hms

/-- A materialized moment record. -/
structure Moment where
  timestamp : Int
  formatted_time : String
  message_count : Int
  slope : WithTop ℚ
  messages : List Event
deriving DecidableEq, Repr

/-- Chronological comparison of moments by timestamp, the sort key of
`create_moment_data`'s final `sorted`. -/
def momentLE (a b : Moment) : Prop := a.timestamp ≤ b.timestamp

instance : DecidableRel momentLE := fun a b => Int.decLe a.timestamp b.timestamp

instance : IsTotal Moment momentLE :=
  ⟨fun a b => Int.le_total a.timestamp b.timestamp⟩

instance : IsTrans Moment momentLE :=
  ⟨fun _ _ _ h1 h2 => le_trans h1 h2⟩

/-- The loop of `create_moment_data`: one record per selected window with a
non-empty bucket, in selection order, before the final sort. A missing
window index raises `KeyError` exactly as the Python dict lookups do. -/
def materialize (top : List Int) (buckets : List (Int × List Event))
    (act : List (Int × Int)) (slopes : List (Int × WithTop ℚ)) :
    Except PyError (List Moment) :=
  match top with
  | [] => .ok []
  | w :: rest =>
    match dlookup buckets w with
    | none => .error .keyError
    | some [] => materialize rest buckets act slopes
    | some (msg :: more) =>
      match dlookup act w, dlookup slopes w with
      | some c, some sl =>
        (materialize rest buckets act slopes).map (fun tail =>
          { timestamp := msg.time_in_seconds
            formatted_time := format_timestamp msg.time_in_seconds
            message_count := c
            slope := sl
            messages := msg :: more } :: tail)
      | _, _ => .error .keyError

/-- `create_moment_data(top_moments, messages_by_window, activity_by_window,
slopes, window_size)`: materialize the selected windows, then return the
records sorted ascending by timestamp (stably, as Python's `sorted`). -/
def create_moment_data (top : List Int) (buckets : List (Int × List Event))
    (act : List (Int × Int)) (slopes : List (Int × WithTop ℚ))
    (window_size : Int) : Except PyError (List Moment) :=
  (materialize top buckets act slopes).map (fun pre =>
    List.insertionSort momentLE pre)

/-- `validate_input(window_size, num_moments)`. -/
def validate_input (window_size : Int) (num_moments : Int) :
    Except PyError Unit :=
  if window_size ≤ 0 then
    .error (.valueError ("window_size must be greater than 0"))
  else if num_moments ≤ 0 then
    .error (.valueError ("num_moments must be greater than 0"))
  else .ok ()

/-- `DEFAULT_NUM_MOMENTS`. -/
def DEFAULT_NUM_MOMENTS : Int := 50

/-- `DEFAULT_WINDOW_SIZE`. -/
def DEFAULT_WINDOW_SIZE : Int := 10

/-- Python's `num_moments or DEFAULT_NUM_MOMENTS` (`None` and `0` falsy). -/
def pyOrNum (n : Option Int) : Int :=
  match n with
  | none => DEFAULT_NUM_MOMENTS
  | some v => if v = 0 then DEFAULT_NUM_MOMENTS else v

/-- One step of the densification loop of `analyze_chat_moments`: insert an
empty bucket for a missing window index (at the end, in dict insertion
order). -/
def densifyStep (acc : List (Int × List Event)) (w : Nat) :
    List (Int × List Event) :=
  if (dlookup acc (Int.ofNat w)).isSome then acc
  else acc ++ [(Int.ofNat w, [])]

/-- The densification loop of `analyze_chat_moments`: for each window index
in `range(total_windows)` not yet present, insert an empty bucket. -/
def densify (m : List (Int × List Event)) (total : Int) :
    List (Int × List Event) :=
  (List.range total.toNat).foldl densifyStep m

/-- `analyze_chat_moments(chat_data, window_size, start_time, end_time,
num_moments, all_moments, use_ratio)`: empty input returns `[]` before
anything else; arguments are validated only when `all_moments` is false and
`num_moments` is not `None`; buckets are built, densified when both bounds
were passed, turned into activity and slopes; the selection is either all
slope keys (chronological) or the top positive slopes; the result is
materialized chronologically. -/
def analyze_chat_moments (chat : List Event) (window_size : Int)
    (start_time end_time : Option Int) (num_moments : Option Int)
    (all_moments : Bool) (ratioMode : Bool) : Except PyError (List Moment) :=
  if chat.isEmpty then .ok []
  else
    match (if !all_moments && num_moments.isSome then
             validate_input window_size (num_moments.getD 0)
           else .ok ()) with
    | .error err => .error err
    | .ok _ =>
      match group_messages_by_window chat window_size start_time end_time with
      | .error err => .error err
      | .ok m0 =>
        if m0.isEmpty then .ok []
        else
          let m := if start_time.isSome && end_time.isSome then
                     densify m0
                       (((end_time.getD 0) - (start_time.getD 0)).fdiv
                         window_size + 1)
                   else m0
          let act := calculate_activity m
          let slopes := calculate_slope act ratioMode
          let top := if all_moments then sortKeys slopes
                     else
                       select_top_moments
                         (slopes.filter (fun p =>
                           decide ((0 : WithTop ℚ) < p.2)))
                         (pyOrNum num_moments)
          create_moment_data top m act slopes window_size

/-- Python's `str.split(':')` on the character list of a string: split on
every colon, keeping empty segments, so the empty string yields one empty
segment. -/
def splitColon : List Char → List (List Char)
  | [] => [[]]
  | c :: rest =>
    let r := splitColon rest
    if c = ':' then [] :: r
    else
      match r with
      | [] => [[c]]
      | g :: gs => (c :: g) :: gs

/-- Decimal value of a digit run. -/
def digitsVal (ds : List Char) : Nat :=
  ds.foldl (fun acc c => 10 * acc + (c.toNat - 48)) 0

/-- A non-empty all-digit run parses to its decimal value. -/
def decDigits? (ds : List Char) : Option Nat :=
  if ds ≠ [] ∧ ds.all Char.isDigit then some (digitsVal ds) else none

/-- Strip leading and trailing whitespace, as Python's `int` does. -/
def trimChars (l : List Char) : List Char :=
  ((l.dropWhile Char.isWhitespace).reverse.dropWhile Char.isWhitespace).reverse

/-- Model of Python's `int(s)` on a decimal string: optional surrounding
whitespace, an optional sign, then a non-empty run of digits. -/
def pyInt? (s : List Char) : Option Int :=
  match trimChars s with
  | '-' :: ds => (decDigits? ds).map (fun n => -(n : Int))
  | '+' :: ds => (decDigits? ds).map (fun n => (n : Int))
  | ds => (decDigits? ds).map (fun n => (n : Int))

/-- Sequential `int` conversion of the fields actually consumed by the
`zip`; the first failing field aborts with `None` (Python raises there). -/
def parseFields : List (List Char) → Option (List Int)
  | [] => some []
  | f :: fs =>
    match pyInt? f, parseFields fs with
    | some v, some vs => some (v :: vs)
    | _, _ => none

/-- `time_to_seconds(time_str)`: split on `:`. The `zip` against
`['hours', 'minutes', 'seconds']` stops at the shorter operand and the
`map(int, ...)` is lazy, so every field after the third is silently
dropped (unevaluated) and fewer than three fields are accepted, filling
`hours` first. Each used field is converted with `int`; a failing
conversion raises the format `ValueError`, and the `timedelta` total is
`3600*hours + 60*minutes + seconds` over the fields present. -/
def time_to_seconds (time_str : String) : Except PyError Int :=
  match parseFields (List.take 3 (splitColon time_str.data)) with
  | none => .error (.valueError ("Time must be in HH:MM:SS format"))
  | some vals =>
    .ok ((vals.zip [3600, 60, 1]).foldl (fun acc p => acc + p.1 * p.2) 0)

/-- The strict version of the `select_top_moments` ranking order:
strictly larger value, or equal value and strictly smaller window index.
Two distinct window indices are always comparable, so a list of distinct
indices sorted by `keyLE` is pairwise `keyLT`. -/
def keyLT (m : List (Int × WithTop ℚ)) (a b : Int) : Prop :=
  dlookupD m b 0 < dlookupD m a 0 ∨ (dlookupD m a 0 = dlookupD m b 0 ∧ a < b)

instance (m : List (Int × WithTop ℚ)) : DecidableRel (keyLT m) := fun a b => by
  unfold keyLT
  infer_instance

/-- Verification predicate: every event stored in a bucket of `m` is in
range and sits under the window index computed from its own time offset. -/
def BucketInv (W s e : Int) (m : List (Int × List Event)) : Prop :=
  ∀ w msgs, (w, msgs) ∈ m → ∀ ev ∈ msgs,
    inRange s e ev = true ∧ (ev.time_in_seconds - s).fdiv W = w

/-- The event list of the spec's literal scenario (and of the repository's
own `test_analyze_chat_moments`): seconds `[1,2,2,3,3,3,14,14,15]`. -/
def sampleChat : List Event :=
  [⟨1, "Hello"⟩, ⟨2, "Hi"⟩, ⟨2, "Hey"⟩, ⟨3, "Wow"⟩, ⟨3, "Amazing"⟩,
   ⟨3, "Cool"⟩, ⟨14, "Test1"⟩, ⟨14, "Test2"⟩, ⟨15, "Test3"⟩]

/-! ## Helper lemmas -/

theorem consecPairs_snd_mem_tail :
    ∀ {l : List Int} {a b : Int}, (a, b) ∈ consecPairs l → b ∈ l.tail := by
  intro l
  induction l with
  | nil => intro a b h; simp [consecPairs] at h
  | cons x rest ih =>
    cases rest with
    | nil => intro a b h; simp [consecPairs] at h
    | cons y rest2 =>
      intro a b h
      rw [consecPairs, List.mem_cons] at h
      rcases h with h | h
      · rw [List.tail_cons]
        rw [Prod.mk.injEq] at h
        exact h.2 ▸ List.mem_cons_self y rest2
      · rw [List.tail_cons]
        exact List.mem_cons_of_mem y (ih h)

theorem dlookup_consec_map {β : Type} (f : Int × Int → β) :
    ∀ {l : List Int} {a b : Int}, l.Nodup → (a, b) ∈ consecPairs l →
      dlookup ((consecPairs l).map (fun pc => (pc.2, f pc))) b =
        some (f (a, b)) := by
  intro l
  induction l with
  | nil => intro a b _ h; simp [consecPairs] at h
  | cons x rest ih =>
    cases rest with
    | nil => intro a b _ h; simp [consecPairs] at h
    | cons y rest2 =>
      intro a b hnd h
      rw [consecPairs, List.mem_cons] at h
      rcases h with h | h
      · rw [Prod.mk.injEq] at h
        rw [consecPairs, List.map_cons, dlookup]
        simp [h.1, h.2]
      · have hb : b ∈ rest2 := by
          have := consecPairs_snd_mem_tail h
          simpa using this
        have hyb : y ≠ b := by
          intro hyb
          exact (List.nodup_cons.mp (List.nodup_cons.mp hnd).2).1 (hyb ▸ hb)
        rw [consecPairs, List.map_cons, dlookup, if_neg hyb]
        exact ih (List.nodup_cons.mp hnd).2 h

theorem sortKeys_nodup {α : Type} {m : List (Int × α)}
    (h : (m.map Prod.fst).Nodup) : (sortKeys m).Nodup :=
  ((List.perm_insertionSort intLE (m.map Prod.fst)).nodup_iff).mpr h

/-! ## Claim C10 -/

/-- Claim C10 (confirmed): on the empty event list `analyze_chat_moments`
returns the empty moment list for every combination of the remaining
arguments — including non-positive window sizes and caps — because the
empty-input check precedes argument validation. -/
theorem claim_C10 (W : Int) (s e K : Option Int) (am ur : Bool) :
    analyze_chat_moments [] W s e K am ur = .ok [] := rfl

/-! ## Claim C3 -/

/-- Claim C3 fails as stated: with `all_moments = True` the validation is
skipped entirely, so a non-positive window size (here `-1`) raises nothing
and the call returns an ordinary (empty) result instead of an
`InvalidArgument` error. -/
theorem claim_C3_counterexample :
    analyze_chat_moments [⟨1, "a"⟩] (-1) none none (some 5) true false =
      .ok [] := rfl

/-- Claim C3 as amended: for a non-empty event list, when `all_moments` is
false and a result cap is supplied, a non-positive window size or cap makes
`analyze_chat_moments` fail closed with the corresponding `ValueError`
before any computation touches the events (the error is independent of the
event data and of `use_ratio`). -/
theorem claim_C3_amended (chat : List Event) (W : Int) (s e : Option Int)
    (k : Int) (ur : Bool) (hne : chat ≠ []) (hbad : W ≤ 0 ∨ k ≤ 0) :
    analyze_chat_moments chat W s e (some k) false ur =
      .error (.valueError
        (if W ≤ 0 then ("window_size must be greater than 0")
         else ("num_moments must be greater than 0"))) := by
  have h0 : chat.isEmpty = false := by
    cases chat with
    | nil => exact absurd rfl hne
    | cons a l => rfl
  by_cases hW : W ≤ 0
  · simp [analyze_chat_moments, h0, validate_input, hW]
  · have hk : k ≤ 0 := hbad.resolve_left hW
    simp [analyze_chat_moments, h0, validate_input, hW, hk]

/-- Witness for the amended claim C3 at a concrete input. -/
theorem claim_C3_witness :
    analyze_chat_moments [⟨1, "a"⟩] 0 none none (some 3) false false =
      .error (.valueError ("window_size must be greater than 0")) := by
  have h := claim_C3_amended [⟨1, "a"⟩] 0 none none 3 false
    (List.cons_ne_nil _ _) (Or.inl le_rfl)
  simpa using h

/-! ## Claim C2 -/

unseal Rat.sub Nat.gcd in
/-- Claim C2 describes the spec scenario and the repository's own test
expectation (two moments, timestamps `[1, 14]`, counts `[6, 3]`), but the
code ranks only windows with a strictly positive slope: on this input the
activity falls from 6 to 3, the only slope is `-3`, the positive-slope
filter empties the candidate set, and the call returns `[]`. This theorem
evaluates the code at the failing input. -/
theorem claim_C2_code_eval :
    analyze_chat_moments sampleChat 10 none none (some 2) false false =
      .ok [] := by decide

/-! ## Claim C8 -/

/-- Claim C8 fails as stated: a wrong segment count does not raise.
With four segments the lazy `zip` silently drops the fourth field
(`"1:2:3:4"` parses as 1 h 2 min 3 s), and with two segments the fields
fill `hours` and `minutes` (`"1:2"` parses as 1 h 2 min). -/
theorem claim_C8_counterexample :
    time_to_seconds ("1:2:3:4") = .ok 3723 ∧
    time_to_seconds ("1:2") = .ok 3720 := by
  exact ⟨rfl, rfl⟩

theorem parseFields_eq_none :
    ∀ l : List (List Char),
      parseFields l = none ↔ ∃ f ∈ l, pyInt? f = none := by
  intro l
  induction l with
  | nil => simp [parseFields]
  | cons a l ih =>
    cases ha : pyInt? a with
    | none => simp [parseFields, ha]
    | some v =>
      rw [parseFields, ha]
      cases hl : parseFields l with
      | none =>
        refine iff_of_true rfl ?_
        rcases ih.mp hl with ⟨f, hf, hfn⟩
        exact ⟨f, List.mem_cons_of_mem a hf, hfn⟩
      | some vs =>
        simp only [List.mem_cons]
        constructor
        · intro hcontra; exact absurd hcontra (by simp)
        · intro hex
          rcases hex with ⟨f, hf | hf, hnone⟩
          · exact absurd hnone (hf ▸ ha ▸ Option.some_ne_none v)
          · exact absurd (ih.mpr ⟨f, hf, hnone⟩) (by simp [hl])

/-- Claim C8 as amended: `"01:30:30"` parses to `5430`, and
`time_to_seconds` raises the format `ValueError` exactly when one of the
first three colon-separated fields is not an integer literal; extra
segments beyond the third are ignored and fewer than three are accepted. -/
theorem claim_C8_amended :
    time_to_seconds ("01:30:30") = .ok 5430 ∧
    ∀ t : String,
      (time_to_seconds t =
        .error (.valueError ("Time must be in HH:MM:SS format"))) ↔
      ∃ f ∈ List.take 3 (splitColon t.data), pyInt? f = none := by
  refine ⟨rfl, ?_⟩
  intro t
  rw [time_to_seconds]
  cases h : parseFields (List.take 3 (splitColon t.data)) with
  | none =>
    exact iff_of_true rfl ((parseFields_eq_none _).mp h)
  | some vals =>
    constructor
    · intro hcontra; exact absurd hcontra (by simp)
    · intro hex
      have hn := (parseFields_eq_none _).mpr hex
      rw [h] at hn
      exact absurd hn (by simp)

/-! ## Claim C1 -/

unseal Rat.sub Nat.gcd in
/-- Claim C1 fails as stated: in ratio mode a rise from activity `0` to a
positive value does not produce the `+infinity` sentinel; the code falls
back to the integer difference, so `0 → 5` yields the finite value `5`. -/
theorem claim_C1_counterexample :
    dlookup (calculate_slope [((0 : Int), (0 : Int)), (1, 5)] true) 1 =
      some (((5 : ℚ) : WithTop ℚ)) ∧
    (((5 : ℚ) : WithTop ℚ)) ≠ (⊤ : WithTop ℚ) :=
  ⟨by decide, WithTop.coe_ne_top⟩

/-- Claim C1 as amended: in ratio mode, between consecutive present
windows, the slope is `activity[i]/activity[i-1] - 1` when the predecessor
activity is positive, and otherwise (in particular from a predecessor of
`0`) it falls back to the plain difference `activity[i] - activity[i-1]`:
`0 → 5` gives `5` (not `+infinity`), `5 → 0` gives `-1` (via the ratio
formula), and `0 → 0` gives `0` (via the difference). -/
theorem claim_C1_amended (act : List (Int × Int)) (w₁ w₂ p c : Int)
    (hnd : (act.map Prod.fst).Nodup)
    (hcons : (w₁, w₂) ∈ consecPairs (sortKeys act))
    (hp : dlookup act w₁ = some p) (hc : dlookup act w₂ = some c) :
    ∃ sl, dlookup (calculate_slope act true) w₂ = some sl ∧
      (0 < p → sl = ((((c : ℚ) / (p : ℚ) - 1) : ℚ) : WithTop ℚ)) ∧
      (p ≤ 0 → sl = ((((c : ℚ) - (p : ℚ)) : ℚ) : WithTop ℚ)) := by
  have hmain := dlookup_consec_map
    (fun pc => slopeVal true (dlookupD act pc.1 0) (dlookupD act pc.2 0))
    (sortKeys_nodup hnd) hcons
  refine ⟨slopeVal true p c, ?_, ?_, ?_⟩
  · rw [calculate_slope]
    rw [hmain]
    simp [dlookupD, hp, hc]
  · intro hpos
    have hne : (p : ℚ) ≠ 0 := by
      exact_mod_cast (ne_of_gt hpos)
    rw [slopeVal, if_pos ⟨rfl, hpos⟩]
    rw [sub_div, div_self hne]
  · intro hnonpos
    rw [slopeVal, if_neg]
    intro hcontra
    exact absurd hcontra.2 (not_lt.mpr hnonpos)

/-- Witness for the amended claim C1: the activity map `{0: 5, 1: 0}` in
ratio mode, where the drop `5 → 0` gives slope `-1` by the ratio formula. -/
theorem claim_C1_witness :
    ∃ sl,
      dlookup (calculate_slope [((0 : Int), (5 : Int)), (1, 0)] true) 1 =
        some sl ∧
      (0 < (5 : Int) → sl = ((((0 : ℚ) / (5 : ℚ) - 1) : ℚ) : WithTop ℚ)) ∧
      ((5 : Int) ≤ 0 → sl = ((((0 : ℚ) - (5 : ℚ)) : ℚ) : WithTop ℚ)) :=
  claim_C1_amended [(0, 5), (1, 0)] 0 1 5 0 (by decide) (by decide) rfl rfl

/-! ## Bucketing lemmas (for claims C4 and C7) -/

theorem dlookup_append_of_some {α : Type} {m₁ : List (Int × α)} {k : Int}
    {v : α} (m₂ : List (Int × α)) (h : dlookup m₁ k = some v) :
    dlookup (m₁ ++ m₂) k = some v := by
  induction m₁ with
  | nil => simp [dlookup] at h
  | cons a rest ih =>
    obtain ⟨k', v'⟩ := a
    simp only [dlookup] at h
    rw [List.cons_append]
    simp only [dlookup]
    by_cases hk : k' = k
    · rwa [if_pos hk] at h ⊢
    · rw [if_neg hk] at h ⊢
      exact ih h

theorem dlookup_append_of_none {α : Type} {m₁ : List (Int × α)} {k : Int}
    (m₂ : List (Int × α)) (h : dlookup m₁ k = none) :
    dlookup (m₁ ++ m₂) k = dlookup m₂ k := by
  induction m₁ with
  | nil => simp
  | cons a rest ih =>
    obtain ⟨k', v'⟩ := a
    simp only [dlookup] at h
    rw [List.cons_append]
    simp only [dlookup]
    by_cases hk : k' = k
    · rw [if_pos hk] at h; exact absurd h (Option.some_ne_none v')
    · rw [if_neg hk] at h ⊢
      exact ih h

theorem dlookup_upsert (m : List (Int × List Event)) (k : Int) (v : Event)
    (k' : Int) :
    dlookup (upsert m k v) k' =
      if k = k' then some ((dlookupD m k []) ++ [v]) else dlookup m k' := by
  induction m with
  | nil =>
    rw [upsert]
    by_cases hk : k = k'
    · simp [dlookup, dlookupD, hk]
    · simp [dlookup, dlookupD, hk]
  | cons a rest ih =>
    obtain ⟨a1, vs⟩ := a
    rw [upsert]
    by_cases ha : a1 = k
    · rw [if_pos ha]
      by_cases hk : k = k'
      · simp only [dlookup, dlookupD, if_pos (ha.trans hk), if_pos hk,
          if_pos ha]
        rfl
      · simp only [dlookup, if_neg (fun hc => hk (ha ▸ hc)), if_neg hk]
    · rw [if_neg ha]
      by_cases hk : k = k'
      · have ha' : a1 ≠ k' := fun hc => ha (hc.trans hk.symm)
        simp only [dlookup, if_neg ha', ih, if_pos hk, dlookupD, if_neg ha]
      · simp only [dlookup, ih, if_neg hk]

theorem calculate_activity_map_snd (m : List (Int × List Event)) :
    (calculate_activity m).map Prod.snd =
      ((m.map (fun p => p.2.length)).map (fun n : Nat => (n : Int))) := by
  simp only [calculate_activity, List.map_map]
  rfl

theorem sumLen_upsert (m : List (Int × List Event)) (k : Int) (v : Event) :
    ((upsert m k v).map (fun p => p.2.length)).sum =
      (m.map (fun p => p.2.length)).sum + 1 := by
  induction m with
  | nil => simp [upsert]
  | cons a rest ih =>
    obtain ⟨a1, vs⟩ := a
    rw [upsert]
    by_cases ha : a1 = k
    · rw [if_pos ha]
      simp only [List.map_cons, List.sum_cons, List.length_append,
        List.length_singleton]
      omega
    · rw [if_neg ha]
      simp only [List.map_cons, List.sum_cons, ih]
      omega

theorem sumLen_bucketStep_foldl (W s e : Int) :
    ∀ (chat : List Event) (acc : List (Int × List Event)),
      ((chat.foldl (bucketStep W s e) acc).map (fun p => p.2.length)).sum =
        (acc.map (fun p => p.2.length)).sum +
          (chat.filter (inRange s e)).length := by
  intro chat
  induction chat with
  | nil => intro acc; simp
  | cons ev rest ih =>
    intro acc
    rw [List.foldl_cons, ih, List.filter_cons]
    by_cases hin : inRange s e ev = true
    · rw [if_pos hin, bucketStep, if_pos hin, sumLen_upsert,
        List.length_cons]
      omega
    · rw [if_neg hin, bucketStep, if_neg hin]

/-! ## Claim C7 -/

/-- Claim C7 (confirmed, count conservation): for every event list, window
size `W > 0` and effective range, the activity values produced by
`calculate_activity` on the buckets of `group_messages_by_window` sum to
the number of in-range events. -/
theorem claim_C7 (chat : List Event) (W : Int) (s e : Option Int)
    (m : List (Int × List Event)) (hW : 0 < W)
    (h : group_messages_by_window chat W s e = .ok m) :
    ((calculate_activity m).map Prod.snd).sum =
      ((chat.filter
        (inRange (pyOr s (minTime chat)) (pyOr e (maxTime chat)))).length :
        Int) := by
  rw [group_messages_by_window] at h
  by_cases hch : chat.isEmpty = true
  · rw [if_pos hch] at h
    injection h with h
    subst h
    have hchat : chat = [] := List.isEmpty_iff.mp hch
    subst hchat
    simp [calculate_activity]
  · rw [if_neg hch] at h
    simp only at h
    rw [if_neg (fun hc => absurd hc.1 (by omega))] at h
    injection h with h
    subst h
    rw [calculate_activity_map_snd, ← Nat.cast_list_sum, bucketize,
      sumLen_bucketStep_foldl]
    simp

/-- Witness for claim C7 at a concrete input: two events, window size 10. -/
theorem claim_C7_witness :
    ((calculate_activity [((0 : Int), [(⟨1, "a"⟩ : Event)]),
        (1, [⟨12, "b"⟩])]).map Prod.snd).sum =
      (([(⟨1, "a"⟩ : Event), ⟨12, "b"⟩].filter
        (inRange (pyOr none (minTime [(⟨1, "a"⟩ : Event), ⟨12, "b"⟩]))
          (pyOr none (maxTime [(⟨1, "a"⟩ : Event), ⟨12, "b"⟩])))).length :
        Int) := by
  have h := claim_C7 [⟨1, "a"⟩, ⟨12, "b"⟩] 10 none none
    [(0, [⟨1, "a"⟩]), (1, [⟨12, "b"⟩])] (by decide) (by decide)
  exact h

theorem dlookup_mem {α : Type} :
    ∀ {m : List (Int × α)} {k : Int} {v : α},
      dlookup m k = some v → (k, v) ∈ m := by
  intro m
  induction m with
  | nil => intro k v h; simp [dlookup] at h
  | cons a rest ih =>
    intro k v h
    obtain ⟨a1, v1⟩ := a
    simp only [dlookup] at h
    by_cases hk : a1 = k
    · rw [if_pos hk] at h
      refine List.mem_cons.mpr (Or.inl ?_)
      rw [Prod.mk.injEq]
      exact ⟨hk.symm, (Option.some_inj.mp h).symm⟩
    · rw [if_neg hk] at h
      exact List.mem_cons_of_mem _ (ih h)

theorem foldl_densifyStep_some {k : Int} {v : List Event} :
    ∀ (ws : List Nat) (m : List (Int × List Event)),
      dlookup m k = some v →
      dlookup (ws.foldl densifyStep m) k = some v := by
  intro ws
  induction ws with
  | nil => intro m h; exact h
  | cons w ws ih =>
    intro m h
    rw [List.foldl_cons]
    apply ih
    rw [densifyStep]
    by_cases hw : (dlookup m (Int.ofNat w)).isSome
    · rwa [if_pos hw]
    · rw [if_neg hw]
      exact dlookup_append_of_some _ h

theorem foldl_densifyStep_isSome {k : Int}
    (ws : List Nat) (m : List (Int × List Event))
    (h : (dlookup m k).isSome = true) :
    (dlookup (ws.foldl densifyStep m) k).isSome = true := by
  rcases Option.isSome_iff_exists.mp h with ⟨v, hv⟩
  rw [foldl_densifyStep_some ws m hv]
  rfl

theorem foldl_densifyStep_mem :
    ∀ (ws : List Nat) (m : List (Int × List Event)) (w : Nat), w ∈ ws →
      (dlookup (ws.foldl densifyStep m) (Int.ofNat w)).isSome = true := by
  intro ws
  induction ws with
  | nil => intro m w h; simp at h
  | cons w' ws ih =>
    intro m w h
    rw [List.foldl_cons]
    rcases List.mem_cons.mp h with h | h
    · subst h
      apply foldl_densifyStep_isSome
      rw [densifyStep]
      by_cases hw : (dlookup m (Int.ofNat w)).isSome
      · rwa [if_pos hw]
      · rw [if_neg hw]
        have hnone : dlookup m (Int.ofNat w) = none :=
          Option.not_isSome_iff_eq_none.mp hw
        rw [dlookup_append_of_none _ hnone]
        simp [dlookup]
    · exact ih _ w h

theorem foldl_densifyStep_inv {k : Int} :
    ∀ (ws : List Nat) (m : List (Int × List Event)) (msgs : List Event),
      dlookup (ws.foldl densifyStep m) k = some msgs →
      dlookup m k = some msgs ∨ msgs = [] := by
  intro ws
  induction ws with
  | nil => intro m msgs h; exact Or.inl h
  | cons w ws ih =>
    intro m msgs h
    rw [List.foldl_cons] at h
    rcases ih _ _ h with h2 | h2
    · rw [densifyStep] at h2
      by_cases hw : (dlookup m (Int.ofNat w)).isSome
      · rw [if_pos hw] at h2; exact Or.inl h2
      · rw [if_neg hw] at h2
        cases hmm : dlookup m k with
        | some v =>
          rw [dlookup_append_of_some _ hmm] at h2
          exact Or.inl h2
        | none =>
          rw [dlookup_append_of_none _ hmm] at h2
          simp only [dlookup] at h2
          by_cases hk : Int.ofNat w = k
          · rw [if_pos hk] at h2
            exact Or.inr (Option.some_inj.mp h2).symm
          · rw [if_neg hk] at h2
            exact absurd h2 (by simp)
    · exact Or.inr h2

theorem bucketInv_nil (W s e : Int) : BucketInv W s e [] := by
  intro w msgs h
  simp at h

theorem bucketInv_upsert {W s e k : Int} {v : Event}
    (hin : inRange s e v = true)
    (hw : (v.time_in_seconds - s).fdiv W = k) :
    ∀ m, BucketInv W s e m → BucketInv W s e (upsert m k v) := by
  intro m
  induction m with
  | nil =>
    intro _ w msgs hmem ev hev
    rw [upsert] at hmem
    rw [List.mem_singleton, Prod.mk.injEq] at hmem
    obtain ⟨h1, h2⟩ := hmem
    subst h1
    subst h2
    rw [List.mem_singleton] at hev
    subst hev
    exact ⟨hin, hw⟩
  | cons a rest ih =>
    obtain ⟨a1, vs⟩ := a
    intro hm w msgs hmem ev hev
    have hmrest : BucketInv W s e rest := fun w2 m2 h2 =>
      hm w2 m2 (List.mem_cons_of_mem _ h2)
    rw [upsert] at hmem
    by_cases ha : a1 = k
    · rw [if_pos ha] at hmem
      rcases List.mem_cons.mp hmem with hc | hc
      · rw [Prod.mk.injEq] at hc
        obtain ⟨h1, h2⟩ := hc
        subst h1
        subst h2
        rcases List.mem_append.mp hev with hev2 | hev2
        · exact hm w vs (List.mem_cons_self _ _) ev hev2
        · rw [List.mem_singleton] at hev2
          subst hev2
          refine ⟨hin, ?_⟩
          rw [ha]
          exact hw
      · exact hm w msgs (List.mem_cons_of_mem _ hc) ev hev
    · rw [if_neg ha] at hmem
      rcases List.mem_cons.mp hmem with hc | hc
      · rw [Prod.mk.injEq] at hc
        obtain ⟨h1, h2⟩ := hc
        subst h1
        subst h2
        exact hm w msgs (List.mem_cons_self _ _) ev hev
      · exact ih hmrest w msgs hc ev hev

theorem bucketInv_foldl {W s e : Int} :
    ∀ (chat : List Event) (acc : List (Int × List Event)),
      BucketInv W s e acc →
      BucketInv W s e (chat.foldl (bucketStep W s e) acc) := by
  intro chat
  induction chat with
  | nil => intro acc h; exact h
  | cons ev rest ih =>
    intro acc h
    rw [List.foldl_cons]
    apply ih
    rw [bucketStep]
    by_cases hin : inRange s e ev = true
    · rw [if_pos hin]
      exact bucketInv_upsert hin rfl acc h
    · rw [if_neg hin]
      exact h

theorem bucketize_mem_mono {W s e : Int} {w : Int} {ev : Event} :
    ∀ (chat : List Event) (acc : List (Int × List Event))
      (msgs : List Event),
      dlookup acc w = some msgs → ev ∈ msgs →
      ∃ msgs2,
        dlookup (chat.foldl (bucketStep W s e) acc) w = some msgs2 ∧
          ev ∈ msgs2 := by
  intro chat
  induction chat with
  | nil => intro acc msgs h hev; exact ⟨msgs, h, hev⟩
  | cons ev' rest ih =>
    intro acc msgs h hev
    rw [List.foldl_cons, bucketStep]
    by_cases hin : inRange s e ev' = true
    · rw [if_pos hin]
      by_cases hk : (ev'.time_in_seconds - s).fdiv W = w
      · refine ih _ ((dlookupD acc ((ev'.time_in_seconds - s).fdiv W) []) ++
          [ev']) ?_ ?_
        · rw [dlookup_upsert, if_pos hk]
        · refine List.mem_append_left _ ?_
          rw [hk, dlookupD, h]
          exact hev
      · refine ih _ msgs ?_ hev
        rw [dlookup_upsert, if_neg hk]
        exact h
    · rw [if_neg hin]
      exact ih _ msgs h hev

theorem bucketize_mem {W s e : Int} {ev : Event} :
    ∀ (chat : List Event) (acc : List (Int × List Event)),
      ev ∈ chat → inRange s e ev = true →
      ∃ msgs,
        dlookup (chat.foldl (bucketStep W s e) acc)
          ((ev.time_in_seconds - s).fdiv W) = some msgs ∧ ev ∈ msgs := by
  intro chat
  induction chat with
  | nil => intro acc h _; simp at h
  | cons ev' rest ih =>
    intro acc hmem hin
    rcases List.mem_cons.mp hmem with hc | hc
    · subst hc
      rw [List.foldl_cons, bucketStep, if_pos hin]
      refine bucketize_mem_mono rest _
        ((dlookupD acc ((ev.time_in_seconds - s).fdiv W) []) ++ [ev]) ?_ ?_
      · rw [dlookup_upsert, if_pos rfl]
      · exact List.mem_append_right _ (List.mem_singleton.mpr rfl)
    · rw [List.foldl_cons]
      exact ih _ hc hin

theorem foldl_min_le (l : List Int) (a : Int) :
    l.foldl min a ≤ a ∧ ∀ x ∈ l, l.foldl min a ≤ x := by
  induction l generalizing a with
  | nil =>
    refine ⟨le_rfl, ?_⟩
    intro x h
    simp at h
  | cons b l ih =>
    rw [List.foldl_cons]
    rcases ih (min a b) with ⟨h1, h2⟩
    refine ⟨le_trans h1 (min_le_left a b), ?_⟩
    intro x hx
    rcases List.mem_cons.mp hx with hx | hx
    · subst hx
      exact le_trans h1 (min_le_right a x)
    · exact h2 x hx

theorem le_foldl_max (l : List Int) (a : Int) :
    a ≤ l.foldl max a ∧ ∀ x ∈ l, x ≤ l.foldl max a := by
  induction l generalizing a with
  | nil =>
    refine ⟨le_rfl, ?_⟩
    intro x h
    simp at h
  | cons b l ih =>
    rw [List.foldl_cons]
    rcases ih (max a b) with ⟨h1, h2⟩
    refine ⟨le_trans (le_max_left a b) h1, ?_⟩
    intro x hx
    rcases List.mem_cons.mp hx with hx | hx
    · subst hx
      exact le_trans (le_max_right a x) h1
    · exact h2 x hx

theorem minTime_le {chat : List Event} {ev : Event} (h : ev ∈ chat) :
    minTime chat ≤ ev.time_in_seconds := by
  cases chat with
  | nil => simp at h
  | cons c cs =>
    show (cs.map (fun x => x.time_in_seconds)).foldl min c.time_in_seconds ≤
      ev.time_in_seconds
    rcases List.mem_cons.mp h with hc | hc
    · exact hc ▸ (foldl_min_le _ _).1
    · exact (foldl_min_le _ _).2 _
        (List.mem_map_of_mem (fun x => x.time_in_seconds) hc)

theorem le_maxTime {chat : List Event} {ev : Event} (h : ev ∈ chat) :
    ev.time_in_seconds ≤ maxTime chat := by
  cases chat with
  | nil => simp at h
  | cons c cs =>
    show ev.time_in_seconds ≤
      (cs.map (fun x => x.time_in_seconds)).foldl max c.time_in_seconds
    rcases List.mem_cons.mp h with hc | hc
    · exact hc ▸ (le_foldl_max _ _).1
    · exact (le_foldl_max _ _).2 _
        (List.mem_map_of_mem (fun x => x.time_in_seconds) hc)

/-! ## Claim C4 -/

/-- Claim C4 (confirmed): with an explicit inclusive range
`start_time <= end_time` and window size `W > 0`, the densified bucket map
computed by the analysis contains every window index from `0` to
`(end_time - start_time) // W` (possibly empty), and every event whose
offset lies in the supplied range sits in exactly one bucket. -/
theorem claim_C4 (chat : List Event) (W s e : Int) (hW : 0 < W)
    (hse : s ≤ e) :
    (∀ i : Int, 0 ≤ i → i ≤ (e - s).fdiv W →
      (dlookup (densify
          (bucketize chat W (pyOr (some s) (minTime chat))
            (pyOr (some e) (maxTime chat)))
          ((e - s).fdiv W + 1)) i).isSome = true) ∧
    (∀ ev ∈ chat, s ≤ ev.time_in_seconds → ev.time_in_seconds ≤ e →
      ∃! w : Int, ∃ msgs,
        dlookup (densify
          (bucketize chat W (pyOr (some s) (minTime chat))
            (pyOr (some e) (maxTime chat)))
          ((e - s).fdiv W + 1)) w = some msgs ∧ ev ∈ msgs) := by
  constructor
  · intro i h0 hi
    have hq : 0 ≤ (e - s).fdiv W := Int.fdiv_nonneg (by omega) (le_of_lt hW)
    rw [densify]
    have hcast : i = Int.ofNat i.toNat := (Int.toNat_of_nonneg h0).symm
    rw [hcast]
    apply foldl_densifyStep_mem
    rw [List.mem_range]
    omega
  · intro ev hev hs he
    have hins : pyOr (some s) (minTime chat) ≤ ev.time_in_seconds := by
      rw [pyOr]
      by_cases h0 : s = 0
      · rw [if_pos h0]; exact minTime_le hev
      · rw [if_neg h0]; exact hs
    have hine : ev.time_in_seconds ≤ pyOr (some e) (maxTime chat) := by
      rw [pyOr]
      by_cases h0 : e = 0
      · rw [if_pos h0]; exact le_maxTime hev
      · rw [if_neg h0]; exact he
    have hin : inRange (pyOr (some s) (minTime chat))
        (pyOr (some e) (maxTime chat)) ev = true := by
      rw [inRange]
      exact decide_eq_true ⟨hins, hine⟩
    obtain ⟨msgs, hlook, hmem⟩ := bucketize_mem chat [] hev hin
    refine ⟨(ev.time_in_seconds - pyOr (some s) (minTime chat)).fdiv W,
      ⟨msgs, ?_, hmem⟩, ?_⟩
    · rw [densify]
      exact foldl_densifyStep_some _ _ hlook
    · rintro w' ⟨msgs', hl', hm'⟩
      rw [densify] at hl'
      rcases foldl_densifyStep_inv _ _ _ hl' with h2 | h2
      · have hinv := bucketInv_foldl chat []
          (bucketInv_nil W (pyOr (some s) (minTime chat))
            (pyOr (some e) (maxTime chat)))
        exact ((hinv w' msgs' (dlookup_mem h2) ev hm').2).symm
      · exact absurd (h2 ▸ hm') (List.not_mem_nil ev)

/-- Witness for claim C4 at a concrete input: one event at second 5,
window size 10, explicit range `[0, 25]`. -/
theorem claim_C4_witness :
    (∀ i : Int, 0 ≤ i → i ≤ ((25 : Int) - 0).fdiv 10 →
      (dlookup (densify
          (bucketize [(⟨5, "a"⟩ : Event)] 10
            (pyOr (some 0) (minTime [(⟨5, "a"⟩ : Event)]))
            (pyOr (some 25) (maxTime [(⟨5, "a"⟩ : Event)])))
          (((25 : Int) - 0).fdiv 10 + 1)) i).isSome = true) ∧
    (∀ ev ∈ [(⟨5, "a"⟩ : Event)],
      (0 : Int) ≤ ev.time_in_seconds → ev.time_in_seconds ≤ 25 →
      ∃! w : Int, ∃ msgs,
        dlookup (densify
          (bucketize [(⟨5, "a"⟩ : Event)] 10
            (pyOr (some 0) (minTime [(⟨5, "a"⟩ : Event)]))
            (pyOr (some 25) (maxTime [(⟨5, "a"⟩ : Event)])))
          (((25 : Int) - 0).fdiv 10 + 1)) w = some msgs ∧ ev ∈ msgs) :=
  claim_C4 [⟨5, "a"⟩] 10 0 25 (by decide) (by decide)

/-! ## Stable-sort lemmas (for claim C5) -/

theorem filter_orderedInsert_of_neg {α : Type} {r : α → α → Prop}
    [DecidableRel r] (p : α → Bool) (a : α) (hp : p a = false) :
    ∀ L : List α, (L.orderedInsert r a).filter p = L.filter p := by
  intro L
  induction L with
  | nil => simp [List.orderedInsert, hp]
  | cons b L ih =>
    rw [List.orderedInsert]
    by_cases hr : r a b
    · rw [if_pos hr, List.filter_cons, hp]
      simp
    · rw [if_neg hr, List.filter_cons, List.filter_cons, ih]

theorem filter_orderedInsert_of_pos {α : Type} {r : α → α → Prop}
    [DecidableRel r] (p : α → Bool) (a : α) (hp : p a = true)
    (hall : ∀ b, p b = true → r a b) :
    ∀ L : List α, (L.orderedInsert r a).filter p = a :: L.filter p := by
  intro L
  induction L with
  | nil => simp [List.orderedInsert, hp]
  | cons b L ih =>
    rw [List.orderedInsert]
    by_cases hr : r a b
    · rw [if_pos hr, List.filter_cons, hp]
      simp
    · rw [if_neg hr]
      have hpb : p b = false := by
        cases hpb : p b
        · rfl
        · exact absurd (hall b hpb) hr
      rw [List.filter_cons, hpb, List.filter_cons, hpb]
      simp [ih]

theorem filter_insertionSort {α : Type} {r : α → α → Prop} [DecidableRel r]
    (p : α → Bool) (hall : ∀ a b, p a = true → p b = true → r a b) :
    ∀ L : List α, (List.insertionSort r L).filter p = L.filter p := by
  intro L
  induction L with
  | nil => simp
  | cons a L ih =>
    rw [List.insertionSort]
    cases hp : p a
    · rw [filter_orderedInsert_of_neg p a hp, List.filter_cons, hp, ih]
      simp
    · rw [filter_orderedInsert_of_pos p a hp (fun b hb => hall a b hp hb),
        List.filter_cons, hp, ih]
      simp

/-! ## Claim C5 -/

/-- Claim C5 (confirmed): whenever `create_moment_data` succeeds, its
output is the stable ascending timestamp sort of the materialized records:
it is pairwise ordered by timestamp, and for each timestamp value the
records with that timestamp appear exactly in input selection order. This
holds for every selection list, bucket map, activity map and slope map. -/
theorem claim_C5 (top : List Int) (buckets : List (Int × List Event))
    (act : List (Int × Int)) (slopes : List (Int × WithTop ℚ))
    (W : Int) (pre : List Moment)
    (h : materialize top buckets act slopes = .ok pre) :
    ∃ out, create_moment_data top buckets act slopes W = .ok out ∧
      out.Pairwise momentLE ∧
      ∀ c : Int, out.filter (fun mo => decide (mo.timestamp = c)) =
        pre.filter (fun mo => decide (mo.timestamp = c)) := by
  refine ⟨List.insertionSort momentLE pre, ?_, ?_, ?_⟩
  · rw [create_moment_data, h]
    rfl
  · exact List.sorted_insertionSort momentLE pre
  · intro c
    refine filter_insertionSort _ ?_ pre
    intro a b ha hb
    have ha' := of_decide_eq_true ha
    have hb' := of_decide_eq_true hb
    rw [momentLE, ha', hb']

/-- Witness for claim C5 at a concrete input: selection `[1, 0]` over two
one-event buckets; the output is re-sorted chronologically. -/
theorem claim_C5_witness :
    ∃ out,
      create_moment_data [1, 0]
          [((0 : Int), [(⟨0, "x"⟩ : Event)]), (1, [⟨10, "y"⟩])]
          [((0 : Int), (1 : Int)), (1, 1)]
          [((0 : Int), ((0 : ℚ) : WithTop ℚ)), (1, ((0 : ℚ) : WithTop ℚ))]
          10 = .ok out ∧
      out.Pairwise momentLE ∧
      ∀ c : Int, out.filter (fun mo => decide (mo.timestamp = c)) =
        [(⟨10, format_timestamp 10, 1, ((0 : ℚ) : WithTop ℚ),
            [⟨10, "y"⟩]⟩ : Moment),
         ⟨0, format_timestamp 0, 1, ((0 : ℚ) : WithTop ℚ),
            [⟨0, "x"⟩]⟩].filter (fun mo => decide (mo.timestamp = c)) :=
  claim_C5 [1, 0] [(0, [⟨0, "x"⟩]), (1, [⟨10, "y"⟩])] [(0, 1), (1, 1)]
    [(0, ((0 : ℚ) : WithTop ℚ)), (1, ((0 : ℚ) : WithTop ℚ))] 10
    [⟨10, format_timestamp 10, 1, ((0 : ℚ) : WithTop ℚ), [⟨10, "y"⟩]⟩,
     ⟨0, format_timestamp 0, 1, ((0 : ℚ) : WithTop ℚ), [⟨0, "x"⟩]⟩] rfl

/-! ## Claim C6 -/

/-- Claim C6 (confirmed): for a finite mapping with distinct window
indices, `select_top_moments` returns exactly the unique listing of the
indices in `(-value, index)` order — descending value with ascending-index
tie-break — truncated to the first `K`; when fewer than `K` candidates
exist the whole listing is returned. Determinism is immediate: the output
is uniquely characterized by the input, so two runs on identical input
agree. -/
theorem claim_C6 (m : List (Int × WithTop ℚ)) (K : Nat) (L : List Int)
    (hnd : (m.map Prod.fst).Nodup)
    (hperm : L.Perm (m.map Prod.fst))
    (hsort : L.Pairwise (keyLT m)) :
    select_top_moments m (K : Int) = L.take K := by
  have hperm2 : (List.insertionSort (keyLE m) (m.map Prod.fst)).Perm L :=
    (List.perm_insertionSort _ _).trans hperm.symm
  have hnd2 : (List.insertionSort (keyLE m) (m.map Prod.fst)).Nodup :=
    ((List.perm_insertionSort (keyLE m) (m.map Prod.fst)).nodup_iff).mpr hnd
  have hsorted := List.sorted_insertionSort (keyLE m) (m.map Prod.fst)
  have hlt : (List.insertionSort (keyLE m) (m.map Prod.fst)).Pairwise
      (keyLT m) := by
    refine (hsorted.and hnd2).imp ?_
    rintro a b ⟨hle, hne⟩
    rcases hle with hle | ⟨heq, hab⟩
    · exact Or.inl hle
    · exact Or.inr ⟨heq, lt_of_le_of_ne hab hne⟩
  have hEq : List.insertionSort (keyLE m) (m.map Prod.fst) = L := by
    haveI : IsAntisymm Int (keyLT m) := by
      constructor
      intro a b h1 h2
      exfalso
      rcases h1 with h1 | ⟨h1e, h1l⟩
      · rcases h2 with h2 | ⟨h2e, h2l⟩
        · exact absurd h2 (lt_asymm h1)
        · exact absurd h1 (h2e ▸ lt_irrefl _)
      · rcases h2 with h2 | ⟨h2e, h2l⟩
        · exact absurd h2 (h1e ▸ lt_irrefl _)
        · omega
    exact List.eq_of_perm_of_sorted hperm2 hlt hsort
  rw [select_top_moments]
  simp only [hEq]
  by_cases hlen : ((L.length : Int) > (K : Int))
  · rw [if_pos hlen, pySlice, if_pos (Int.ofNat_nonneg K)]
    simp
  · rw [if_neg hlen]
    have hle : L.length ≤ K := by exact_mod_cast not_lt.mp hlen
    exact (List.take_of_length_le hle).symm

/-- Witness for claim C6 at a concrete input: values `{0: 2, 1: 5}` with
cap 1 select window 1 (the larger value). -/
theorem claim_C6_witness :
    select_top_moments
        [((0 : Int), ((2 : ℚ) : WithTop ℚ)), (1, ((5 : ℚ) : WithTop ℚ))]
        ((1 : Nat) : Int) =
      ([(1 : Int), 0].take (1 : Nat)) :=
  claim_C6 [(0, ((2 : ℚ) : WithTop ℚ)), (1, ((5 : ℚ) : WithTop ℚ))] 1 [1, 0]
    (by decide) (by decide) (by decide)

/-! ## Claim C9 -/

theorem foldl_min_attained (l : List Int) (a : Int) :
    l.foldl min a = a ∨ l.foldl min a ∈ l := by
  induction l generalizing a with
  | nil => exact Or.inl rfl
  | cons b l ih =>
    rw [List.foldl_cons]
    rcases ih (min a b) with h | h
    · rcases min_choice a b with hm | hm
      · exact Or.inl (h.trans hm)
      · exact Or.inr (List.mem_cons.mpr (Or.inl (h.trans hm)))
    · exact Or.inr (List.mem_cons_of_mem _ h)

theorem minTime_attained {chat : List Event} (h : chat ≠ []) :
    ∃ ev ∈ chat, ev.time_in_seconds = minTime chat := by
  cases chat with
  | nil => exact absurd rfl h
  | cons c cs =>
    have hdef : minTime (c :: cs) =
        (cs.map (fun x => x.time_in_seconds)).foldl min c.time_in_seconds :=
      rfl
    rcases foldl_min_attained (cs.map (fun x => x.time_in_seconds))
        c.time_in_seconds with h2 | h2
    · exact ⟨c, List.mem_cons_self _ _, by rw [hdef, h2]⟩
    · rcases List.mem_map.mp h2 with ⟨ev, hev, hevt⟩
      exact ⟨ev, List.mem_cons_of_mem _ hev, by rw [hdef, hevt]⟩

unseal Rat.sub Nat.gcd in
/-- Claim C9 fails as stated for `analyze_chat_moments`: with events at
seconds 5 and 25, window 10 and an explicit end of 25, passing an explicit
`start_time` of 0 is not the same as leaving it out. The zero start is
falsy, so bucketing anchors at the minimum event time either way, but the
densification guard `start_time is not None` still fires: an empty window
is inserted between the two occupied ones, which turns the second window's
slope positive, and one moment is returned instead of none. -/
theorem claim_C9_counterexample :
    analyze_chat_moments [⟨5, "a"⟩, ⟨25, "b"⟩] 10 (some 0) (some 25)
        (some 50) false false ≠
      analyze_chat_moments [⟨5, "a"⟩, ⟨25, "b"⟩] 10 none (some 25)
        (some 50) false false := by
  decide

/-- Claim C9 as amended: `group_messages_by_window` treats an explicit `0`
bound (start or end) exactly like an omitted one. For
`analyze_chat_moments` the equivalence holds for `start_time = 0` when
`end_time` is omitted (the densification guard is then off either way),
and for `end_time = 0` whenever the window size is positive and
`start_time` is omitted or nonnegative (the densification loop is then a
no-op); with `start_time = 0` and an explicit nonzero `end_time` the
behaviours genuinely differ. -/
theorem claim_C9_amended (chat : List Event) (W : Int) (s : Option Int)
    (e : Option Int) (K : Option Int) (am ur : Bool)
    (hne : chat ≠ []) (hpos : ∀ ev ∈ chat, 0 < ev.time_in_seconds)
    (hW : 0 < W) (hs : s = none ∨ ∃ v, s = some v ∧ 0 ≤ v) :
    group_messages_by_window chat W (some 0) e =
      group_messages_by_window chat W none e ∧
    group_messages_by_window chat W s (some 0) =
      group_messages_by_window chat W s none ∧
    analyze_chat_moments chat W (some 0) none K am ur =
      analyze_chat_moments chat W none none K am ur ∧
    analyze_chat_moments chat W s (some 0) K am ur =
      analyze_chat_moments chat W s none K am ur := by
  refine ⟨rfl, rfl, rfl, ?_⟩
  have hch : chat.isEmpty = false := by
    cases chat with
    | nil => exact absurd rfl hne
    | cons a l => rfl
  rcases hs with hs | ⟨v, hs, hv⟩
  · subst hs; rfl
  · subst hs
    rw [analyze_chat_moments, analyze_chat_moments]
    simp only [hch, Bool.false_eq_true, if_false]
    cases hval : (if !am && K.isSome then
        validate_input W (K.getD 0) else Except.ok ()) with
    | error err => rfl
    | ok u =>
      have hge : group_messages_by_window chat W (some v) (some 0) =
          group_messages_by_window chat W (some v) none := rfl
      rw [hge]
      cases hgr : group_messages_by_window chat W (some v) none with
      | error err => rfl
      | ok m0 =>
        have hno : densify m0 (((0 : Int) - v).fdiv W + 1) = m0 := by
          rcases lt_or_eq_of_le hv with hvpos | hv0
          · have hfd : ((0 : Int) - v).fdiv W < 0 :=
              Int.fdiv_neg' (by omega) hW
            have ht : (((0 : Int) - v).fdiv W + 1).toNat = 0 := by omega
            rw [densify, ht, List.range_zero, List.foldl_nil]
          · have hv0' : v = 0 := hv0.symm
            subst hv0'
            simp only [group_messages_by_window, hch, Bool.false_eq_true,
              if_false] at hgr
            rw [if_neg (fun hc => absurd hc.1 (by omega))] at hgr
            injection hgr with hb
            have hb' : List.foldl (bucketStep W (minTime chat)
                (maxTime chat)) [] chat = m0 := hb
            obtain ⟨ev₀, hev₀, hevt⟩ := minTime_attained hne
            have hin : inRange (minTime chat) (maxTime chat) ev₀ = true :=
              decide_eq_true ⟨le_of_eq hevt.symm, le_maxTime hev₀⟩
            obtain ⟨msgs, hlook, _⟩ := bucketize_mem chat [] hev₀ hin
            rw [hevt, sub_self, Int.zero_fdiv, hb'] at hlook
            have hz : ((0 : Int) - 0).fdiv W + 1 = 1 := by
              rw [sub_self, Int.zero_fdiv, zero_add]
            have h1 : (1 : Int).toNat = 1 := rfl
            have hr1 : List.range 1 = [0] := rfl
            have hofnat : (Int.ofNat 0) = (0 : Int) := rfl
            rw [hz, densify, h1, hr1, List.foldl_cons,
              List.foldl_nil, densifyStep, hofnat, hlook]
            simp
        simp only [Option.isSome_some, Option.isSome_none, Bool.and_true,
          Bool.and_false, eq_self_iff_true, if_true, Bool.false_eq_true,
          if_false, Option.getD_some, hno]

/-- Witness for the amended claim C9 at a concrete input: one event at
second 5, window 10, start 3. -/
theorem claim_C9_witness :
    group_messages_by_window [(⟨5, "a"⟩ : Event)] 10 (some 0) none =
      group_messages_by_window [(⟨5, "a"⟩ : Event)] 10 none none ∧
    group_messages_by_window [(⟨5, "a"⟩ : Event)] 10 (some 3) (some 0) =
      group_messages_by_window [(⟨5, "a"⟩ : Event)] 10 (some 3) none ∧
    analyze_chat_moments [(⟨5, "a"⟩ : Event)] 10 (some 0) none (some 50)
        false false =
      analyze_chat_moments [(⟨5, "a"⟩ : Event)] 10 none none (some 50)
        false false ∧
    analyze_chat_moments [(⟨5, "a"⟩ : Event)] 10 (some 3) (some 0) (some 50)
        false false =
      analyze_chat_moments [(⟨5, "a"⟩ : Event)] 10 (some 3) none (some 50)
        false false :=
  claim_C9_amended [⟨5, "a"⟩] 10 (some 3) none (some 50) false false
    (List.cons_ne_nil _ _) (by decide) (by decide)
    (Or.inr ⟨3, rfl, by decide⟩)

end TwitchAnalyzer
